import Mathlib

/-!
# Verification of the temporal feature engine (`src/feature_engineering/new_features.py`)

This file gives a shallow embedding of the feature-engineering functions of the
Credit-Card repository and proves / refutes the specification claims about them.

Modelling conventions:
* A pandas `DataFrame` row becomes a `Record`: `rid` is the row's index label
  (its stable identity), `key` is the tuple of values in the grouping columns
  (`ref_cols`), and `time` is the timestamp, measured in seconds as an exact
  rational (pandas timestamps are exact integer nanosecond counts, so `Rat`
  loses nothing, and `total_seconds()` values are embedded exactly).
* `df.sort_values(by=[...])` becomes a stable sort by the lexicographic order
  on the sort columns (`List.insertionSort`).
* A pandas `Series` becomes a `List (label × value)`.
* The two statements of `new_features.py` that can raise — `range(0, n, 0)`
  inside `transactions_in_last_interval` and `Series.reindex` on a series with
  duplicate index labels — are modelled with `Except PyError`.
* `transactions_last_minute` assigns `df[time_col] = pd.to_datetime(...)` into
  its argument, so it is embedded in state-passing style, returning the updated
  store next to the result series; timestamp column values are a sum type
  (`TVal`) distinguishing already-parsed datetimes from raw, still-unparsed
  values, mirroring a datetime64 column versus an object column.
-/

namespace CreditCard

/-- The two exceptions the embedded code can raise: `range()` with a zero step
(when `chunk_size` floor-divides to zero), and pandas' `ValueError` for
reindexing a series whose own index has duplicate labels. -/
inductive PyError
  | rangeStepZero
  | duplicateLabels
deriving DecidableEq

/-- One row of the transaction DataFrame: original index label `rid`,
the tuple of grouping-column values `key` (`tuple(row[ref_cols])`),
and the timestamp in seconds. -/
structure Record where
  rid : Nat
  key : List Int
  time : Rat
deriving DecidableEq

/-- A buffered window entry `(tuple(row[ref_cols]), current_time)` as pushed by
`process_chunk`. -/
abbrev Entry := List Int × Rat

/-- The sort order of `df.sort_values(by=ref_cols + [time_col])`: lexicographic
on (grouping key, timestamp). -/
def recLE (r s : Record) : Prop :=
  r.key < s.key ∨ (r.key = s.key ∧ r.time ≤ s.time)

instance : DecidableRel recLE := fun r s => by unfold recLE; infer_instance

instance : IsTotal Record recLE where
  total r s := by
    unfold recLE
    rcases lt_trichotomy r.key s.key with h | h | h
    · exact Or.inl (Or.inl h)
    · rcases le_total r.time s.time with ht | ht
      · exact Or.inl (Or.inr ⟨h, ht⟩)
      · exact Or.inr (Or.inr ⟨h.symm, ht⟩)
    · exact Or.inr (Or.inl h)

instance : IsTrans Record recLE where
  trans a b c hab hbc := by
    unfold recLE at *
    rcases hab with h1 | ⟨e1, t1⟩
    · rcases hbc with h2 | ⟨e2, t2⟩
      · exact Or.inl (h1.trans h2)
      · exact Or.inl (e2 ▸ h1)
    · rcases hbc with h2 | ⟨e2, t2⟩
      · exact Or.inl (e1 ▸ h2)
      · exact Or.inr ⟨e1.trans e2, t1.trans t2⟩

/-- `df.sort_values(by=ref_cols + [time_col])`. -/
def sortRecs (df : List Record) : List Record := List.insertionSort recLE df

/-- The sort order of `df.sort_values(by=[time_column])`. -/
def timeLE (r s : Record) : Prop := r.time ≤ s.time

instance : DecidableRel timeLE := fun r s => by unfold timeLE; infer_instance

instance : IsTotal Record timeLE := ⟨fun r s => le_total r.time s.time⟩

instance : IsTrans Record timeLE := ⟨fun _ _ _ h1 h2 => le_trans h1 h2⟩

/-- `df.sort_values(by=[time_column], ascending=True)`. -/
def sortByTime (df : List Record) : List Record := List.insertionSort timeLE df

/-- The loop of `calculate_time_delta`'s
`df.groupby(ref_col)[time_col].diff().dt.total_seconds()` over the already
(key, time)-sorted rows: each row's delta is the difference to the previous
row when that row belongs to the same group (groups are contiguous after the
sort), and `NaN` (here `none`) for the first row of a group. -/
def deltasGo (prev : Record) : List Record → List (Nat × Option Rat)
  | [] => []
  | r :: rest =>
    (r.rid, if r.key = prev.key then some (r.time - prev.time) else none) ::
      deltasGo r rest

/-- The `diff()` over a whole sorted frame: the very first row has no previous
row at all, hence `NaN` (`none`). -/
def deltasTop : List Record → List (Nat × Option Rat)
  | [] => []
  | r :: rest => (r.rid, none) :: deltasGo r rest

/-- `calculate_time_delta(df, time_col, ref_col)`: sort by (group, time), then
per-group consecutive timestamp difference in seconds; the first transaction of
each group gets `NaN` (`none`). The returned series is indexed by the original
row labels of the sorted view. -/
def calculate_time_delta (df : List Record) : List (Nat × Option Rat) :=
  deltasTop (sortRecs df)

/-- The row loop of `process_chunk`: `window` is the deque of
`(tuple(row[ref_cols]), current_time)` pairs; entries whose timestamp is
strictly earlier than `current_time - timedelta(minutes=interval_minutes)` are
popped from the front, the current row is appended, and the row's count is the
number of buffered entries whose key equals the current row's key. -/
def processChunkGo (ival : Rat) : List Entry → List Record → List (Nat × Nat)
  | _, [] => []
  | window, r :: rest =>
    let cutoff := r.time - ival
    let w1 := window.dropWhile (fun e => decide (e.2 < cutoff))
    let w2 := w1 ++ [(r.key, r.time)]
    (r.rid, w2.countP (fun e => decide (e.1 = r.key))) :: processChunkGo ival w2 rest

/-- `process_chunk(chunk, time_col, ref_cols, interval_minutes)`: a sliding
window pass over one chunk, starting from an empty deque.
`timedelta(minutes=interval_minutes)` is `60 * interval_minutes` seconds. -/
def process_chunk (chunk : List Record) (interval_minutes : Int) : List (Nat × Nat) :=
  processChunkGo (60 * (interval_minutes : Rat)) [] chunk

/-- Label lookup in a series (first matching label, as pandas uses for a
unique index). -/
def lookupId {α : Type} (i : Nat) (s : List (Nat × α)) : Option α :=
  (s.find? (fun e => e.1 == i)).map (·.2)

/-- Models `pandas.Series.reindex(target)` as called on the last line of
`transactions_in_last_interval`. When the target index is identical to the
series' own index (`Index.equals`: element-wise, order-sensitive), `reindex`
short-circuits to a plain copy of the series — no lookup, no error, even with
duplicate labels. Otherwise a real reindexing is performed: a series whose own
index has duplicate labels makes pandas raise `ValueError` ("cannot reindex on
an axis with duplicate labels"), and with unique labels every target label is
looked up, a label absent from the series yielding `NaN` (`none`). -/
def reindexSeries {α : Type} (s : List (Nat × α)) (target : List Nat) :
    Except PyError (List (Nat × Option α)) :=
  if s.map Prod.fst = target then
    .ok (s.map (fun e => (e.1, some e.2)))
  else if (s.map Prod.fst).Nodup then
    .ok (target.map (fun i => (i, lookupId i s)))
  else
    .error .duplicateLabels

/-- `transactions_in_last_interval(df, time_col, ref_cols, interval_minutes,
n_processes)`: sort by (key, time); `chunk_size = len(sorted_df) //
n_processes`; when that is zero, the chunk comprehension's
`range(0, len(sorted_df), chunk_size)` raises `ValueError` (zero step) before
any counting; otherwise the sorted rows are cut into contiguous chunks at
positions `0, chunk_size, 2*chunk_size, ...`, each chunk is processed
independently (the window deque restarts empty in every chunk), the chunk
series are concatenated, and the result is reindexed to the original index. -/
def transactions_in_last_interval (df : List Record) (interval_minutes : Int)
    (n_processes : Nat) : Except PyError (List (Nat × Option Nat)) :=
  let sorted := sortRecs df
  let chunkSize := sorted.length / n_processes
  if chunkSize = 0 then .error .rangeStepZero
  else
    let starts := (List.range ((sorted.length + chunkSize - 1) / chunkSize)).map
      (· * chunkSize)
    let chunks := starts.map (fun i => (sorted.drop i).take chunkSize)
    let combined := (chunks.map (fun c => process_chunk c interval_minutes)).flatten
    reindexSeries combined (df.map (·.rid))

/-- Position `j = i - (n-1)` of `df_sorted[time_column].shift(n-1)` evaluated at
row position `i`: out-of-range positions (negative, or past the end for a
negative shift) are `NaN` (`none`). -/
def shiftGet (ts : List Rat) (j : Int) : Option Rat :=
  if 0 ≤ j then ts[j.toNat]? else none

/-- The row loop of `calculate_time_for_n_transactions` over the time-sorted
rows: row at global position `i` gets
`ts[i] - ts[i - (n-1)]` in seconds when the shifted position exists, and the
`fillna(0)` default otherwise. `k` is the position of the first row of `l`. -/
def nthGo (ts : List Rat) (n : Int) : Nat → List Record → List (Nat × Rat)
  | _, [] => []
  | k, r :: rest =>
    (r.rid,
      match shiftGet ts ((k : Int) - (n - 1)) with
      | some t0 => r.time - t0
      | none => 0) :: nthGo ts n (k + 1) rest

/-- `calculate_time_for_n_transactions(df, time_column, n)`: sort globally by
timestamp only, subtract the series shifted by `n-1`, convert to seconds and
zero-fill the `NaN`s of the first `n-1` rows. -/
def calculate_time_for_n_transactions (df : List Record) (n : Int) :
    List (Nat × Rat) :=
  let s := sortByTime df
  nthGo (s.map Record.time) n 0 s

/-- A timestamp-column value: either an already-parsed datetime (a datetime64
column) or a raw, not yet parsed value (an object column); a raw value carries
the instant it parses to. `pd.to_datetime` maps both to the parsed form. -/
inductive TVal
  | raw (v : Rat)
  | dt (v : Rat)
deriving DecidableEq

/-- `pd.to_datetime` on one column value. -/
def TVal.toDatetime : TVal → TVal
  | .raw v => .dt v
  | .dt v => .dt v

/-- The instant a timestamp-column value denotes once parsed. -/
def TVal.val : TVal → Rat
  | .raw v => v
  | .dt v => v

/-- A row as seen by `transactions_last_minute`: index label and the
timestamp-column value, which may still be unparsed. -/
structure RawRecord where
  rid : Nat
  time : TVal
deriving DecidableEq

/-- `transactions_last_minute(df, time_col)` in state-passing style. The first
component is the record store after the call: the function executes
`df[time_col] = pd.to_datetime(df[time_col])`, overwriting the timestamp
column of its argument in place. It then counts, for each row, the rows of the
(updated) frame with timestamp in `(t - 1 minute, t]`, and returns that series
next to the updated store. -/
def transactions_last_minute (df : List RawRecord) :
    List RawRecord × List (Nat × Nat) :=
  let df2 := df.map (fun r => { r with time := r.time.toDatetime })
  (df2,
    df2.map (fun r =>
      (r.rid,
        df2.countP (fun s =>
          decide (r.time.val - 60 < s.time.val) && decide (s.time.val ≤ r.time.val)))))

/-- Modelled from the spec's words, for comparison with the code (claim C2):
"the number of records in the same group (equal composite key) whose timestamp
lies in the half-open interval `(current_timestamp - interval,
current_timestamp]`, including the record itself". -/
def specWindowCount (df : List Record) (interval_minutes : Int) (r : Record) : Nat :=
  df.countP (fun s =>
    decide (s.key = r.key) && decide (r.time - 60 * (interval_minutes : Rat) < s.time)
      && decide (s.time ≤ r.time))

/-- Whether a timestamp-column value is already a parsed datetime. -/
def TVal.isDt : TVal → Bool
  | .raw _ => false
  | .dt _ => true

deriving instance DecidableEq for Except

/-! ### Concrete inputs used in the claim theorems -/

/-- Two transactions of one group, 10 s apart: the second lies inside the
first's one-minute window. -/
def dfPair : List Record := [⟨0, [7], 0⟩, ⟨1, [7], 10⟩]

/-- The spec's boundary example: a single group with timestamps at
0 s, 10 s, 70 s and 75 s. -/
def dfWindow : List Record :=
  [⟨0, [7], 0⟩, ⟨1, [7], 10⟩, ⟨2, [7], 70⟩, ⟨3, [7], 75⟩]

/-- A single group with timestamps at 0 s and 60 s: the first record sits
exactly on the second record's cutoff `60 s - 1 min`. -/
def dfBoundary : List Record := [⟨0, [7], 0⟩, ⟨1, [7], 60⟩]

/-- Two groups whose keys sort the late-timestamp group first: the entry
`([9], 1000)` blocks front eviction of the stale `([10], 0)` entry. -/
def dfBlock : List Record := [⟨0, [9], 1000⟩, ⟨1, [10], 0⟩, ⟨2, [10], 200⟩]

/-- A single group with two simultaneous transactions. -/
def dfTie : List Record := [⟨0, [7], 0⟩, ⟨1, [7], 0⟩]

/-- The spec's grouped-delta example: one group, timestamps
`t0, t0+5s, t0+5s, t0+20s` with `t0 = 3 s`. -/
def dfDelta : List Record :=
  [⟨0, [4], 3⟩, ⟨1, [4], 8⟩, ⟨2, [4], 8⟩, ⟨3, [4], 23⟩]

/-- The spec's n-th-interval example: timestamps `[0, 5, 9, 20, 30]`. -/
def dfN : List Record :=
  [⟨0, [1], 0⟩, ⟨1, [1], 5⟩, ⟨2, [1], 9⟩, ⟨3, [1], 20⟩, ⟨4, [1], 30⟩]

/-- A store whose timestamp column is already in datetime form. -/
def dfLast : List RawRecord := [⟨0, .dt 0⟩, ⟨1, .dt 30⟩]

/-- A result series holding a value for identity 0 only. -/
def seriesMissing : List (Nat × Nat) := [(0, 5)]

/-- A result series whose index carries the label 0 twice. -/
def seriesDup : List (Nat × Nat) := [(0, 5), (0, 6)]

/-! ## Helper lemmas -/

/-- Front eviction (`while window and window[0][1] < cutoff: popleft()`) on a
deque whose buffered timestamps are non-decreasing removes exactly the entries
strictly earlier than the cutoff. -/
lemma dropWhile_eq_filter_of_mono (c : Rat) :
    ∀ w : List Entry, (w.map Prod.snd).Pairwise (· ≤ ·) →
      w.dropWhile (fun e => decide (e.2 < c)) = w.filter (fun e => decide (c ≤ e.2)) := by
  intro w
  induction w with
  | nil => intro _; rfl
  | cons e w ih =>
    intro hp
    rw [List.map_cons, List.pairwise_cons] at hp
    by_cases he : e.2 < c
    · have h1 : ¬ c ≤ e.2 := not_le.mpr he
      rw [List.dropWhile_cons, List.filter_cons, if_pos (decide_eq_true he),
        if_neg (by simpa using h1)]
      exact ih hp.2
    · push_neg at he
      have h1 : ¬ e.2 < c := not_lt.mpr he
      have hall : ∀ x ∈ w, (fun e : Entry => decide (c ≤ e.2)) x = true := fun x hx =>
        decide_eq_true (he.trans (hp.1 x.2 (List.mem_map_of_mem Prod.snd hx)))
      rw [List.dropWhile_cons, List.filter_cons, if_neg (by simpa using h1),
        if_pos (decide_eq_true he), List.filter_eq_self.mpr hall]

/-- The record identities attached by `process_chunk` are exactly the chunk's
row labels, in chunk order. -/
lemma processChunkGo_map_fst (ival : Rat) :
    ∀ (w : List Entry) (l : List Record),
      (processChunkGo ival w l).map Prod.fst = l.map Record.rid := by
  intro w l
  induction l generalizing w with
  | nil => rfl
  | cons a rest ih => simp [processChunkGo, ih]

/-- Invariant of the sliding-window loop: provided the buffered timestamps
followed by the remaining rows' timestamps are globally non-decreasing, the
count emitted for the `i`-th remaining row equals the number of same-key
entries among the initial buffer and the rows processed so far (the row
itself included) whose timestamp is at least `current_timestamp - interval`.
Eviction is strict-less-than, so an entry exactly at the cutoff is counted. -/
lemma processChunkGo_cons (ival : Rat) (w : List Entry) (a : Record)
    (rest : List Record) :
    processChunkGo ival w (a :: rest) =
      (a.rid, ((w.dropWhile (fun e => decide (e.2 < a.time - ival)) ++
          [(a.key, a.time)]).countP (fun e => decide (e.1 = a.key)))) ::
        processChunkGo ival
          (w.dropWhile (fun e => decide (e.2 < a.time - ival)) ++ [(a.key, a.time)])
          rest := rfl

lemma processChunkGo_count_spec (ival : Rat) (hiv : 0 ≤ ival) :
    ∀ (l : List Record) (w : List Entry),
      (w.map Prod.snd ++ l.map Record.time).Pairwise (· ≤ ·) →
      ∀ (i : Nat) (r : Record), l[i]? = some r →
        (processChunkGo ival w l)[i]? =
          some (r.rid,
            ((w ++ (l.take (i + 1)).map (fun s => (s.key, s.time))).filter
                (fun e => decide (r.time - ival ≤ e.2))).countP
              (fun e => decide (e.1 = r.key))) := by
  intro l
  induction l with
  | nil => intro w _ i r hr; simp at hr
  | cons a rest ih =>
    intro w hP i r hr
    have hsplit := List.pairwise_append.mp (by simpa using hP)
    have hw : (w.map Prod.snd).Pairwise (· ≤ ·) := hsplit.1
    have hdw := dropWhile_eq_filter_of_mono (a.time - ival) w hw
    rw [processChunkGo_cons]
    cases i with
    | zero =>
      rw [List.getElem?_cons_zero] at hr
      have hra : a = r := by simpa using hr
      subst hra
      rw [List.getElem?_cons_zero]
      congr 2
      rw [List.take_succ_cons, List.take_zero, List.map_cons, List.map_nil,
        List.filter_append, hdw]
      congr 1
      simp only [List.filter_cons, List.filter_nil]
      rw [if_pos (decide_eq_true (sub_le_self a.time hiv))]
    | succ j =>
      rw [List.getElem?_cons_succ] at hr
      rw [List.getElem?_cons_succ]
      have hmemt : r.time ∈ rest.map Record.time :=
        List.mem_map_of_mem Record.time (List.getElem?_mem hr)
      have har : a.time ≤ r.time := by
        have h2 := hsplit.2.1
        rw [List.pairwise_cons] at h2
        exact h2.1 r.time hmemt
      rw [hdw]
      have hW2 : (((w.filter (fun e => decide (a.time - ival ≤ e.2)) ++
          [(a.key, a.time)]).map Prod.snd) ++ rest.map Record.time).Pairwise (· ≤ ·) := by
        refine List.Pairwise.sublist ?_ hP
        rw [List.map_append]
        simp only [List.map_cons, List.map_nil]
        have hsub : List.Sublist
            ((w.filter (fun e => decide (a.time - ival ≤ e.2))).map Prod.snd)
            (w.map Prod.snd) := (List.filter_sublist w).map Prod.snd
        have hsub2 := hsub.append_right (a.time :: rest.map Record.time)
        simpa [List.append_assoc] using hsub2
      rw [ih _ hW2 j r hr]
      congr 3
      rw [List.take_succ_cons, List.map_cons, ← List.singleton_append,
        List.append_assoc]
      simp only [List.filter_append]
      congr 1
      rw [List.filter_filter]
      apply List.filter_congr
      intro e _
      by_cases hp : r.time - ival ≤ e.2
      · have hq : a.time - ival ≤ e.2 := le_trans (by linarith) hp
        simp [hp, hq]
      · simp [hp]
      · simp only [List.filter_cons, List.filter_nil, List.append_nil]
        by_cases hc : r.time - ival ≤ a.time
        · simp [hc]
        · simp [hc]

/-- In a single-group record set, the (key, time) sort leaves the timestamps
non-decreasing. -/
lemma sortRecs_times_pairwise_of_const_key (df : List Record) (k : List Int)
    (hk : ∀ r ∈ df, r.key = k) :
    ((sortRecs df).map Record.time).Pairwise (· ≤ ·) := by
  rw [List.pairwise_map]
  have hs : (sortRecs df).Pairwise recLE := List.sorted_insertionSort recLE df
  refine hs.imp_of_mem ?_
  intro a b ha hb hab
  have hka : a.key = k := hk a ((List.perm_insertionSort recLE df).mem_iff.mp ha)
  have hkb : b.key = k := hk b ((List.perm_insertionSort recLE df).mem_iff.mp hb)
  rcases hab with h | ⟨_, h⟩
  · rw [hka, hkb] at h
    exact absurd h (lt_irrefl k)
  · exact h

/-- The timestamps of the globally time-sorted view are non-decreasing. -/
lemma sortByTime_times_pairwise (df : List Record) :
    ((sortByTime df).map Record.time).Pairwise (· ≤ ·) := by
  rw [List.pairwise_map]
  exact List.sorted_insertionSort timeLE df

/-- The (key, time) order implies the lexicographic key order. -/
lemma recLE_key_le {a b : Record} (h : recLE a b) : a.key ≤ b.key :=
  h.elim le_of_lt (fun h2 => le_of_eq h2.1)

/-- The series built by `groupby(..).diff()` carries the sorted rows' labels,
in sorted order. -/
lemma deltasGo_map_fst :
    ∀ (prev : Record) (l : List Record),
      (deltasGo prev l).map Prod.fst = l.map Record.rid := by
  intro prev l
  induction l generalizing prev with
  | nil => rfl
  | cons a rest ih => simp [deltasGo, ih]

lemma deltasGo_cons (prev a : Record) (rest : List Record) :
    deltasGo prev (a :: rest) =
      (a.rid, if a.key = prev.key then some (a.time - prev.time) else none) ::
        deltasGo a rest := rfl

/-- Positional description of the `diff()` loop: the row at position `i` of the
remaining rows is compared with the row just before it (`prev` for `i = 0`). -/
lemma deltasGo_getElem? :
    ∀ (l : List Record) (prev : Record) (i : Nat) (r p : Record),
      l[i]? = some r → (prev :: l)[i]? = some p →
      (deltasGo prev l)[i]? =
        some (r.rid, if r.key = p.key then some (r.time - p.time) else none) := by
  intro l
  induction l with
  | nil => intro prev i r p hr _; simp at hr
  | cons a rest ih =>
    intro prev i r p hr hp
    cases i with
    | zero =>
      have hra : a = r := by simpa using hr
      have hpp : prev = p := by simpa using hp
      subst hra; subst hpp
      rw [deltasGo_cons, List.getElem?_cons_zero]
    | succ j =>
      rw [List.getElem?_cons_succ] at hr hp
      rw [deltasGo_cons, List.getElem?_cons_succ]
      exact ih a j r p hr hp

/-- The n-th-interval loop carries the time-sorted rows' labels, in order. -/
lemma nthGo_map_fst (ts : List Rat) (n : Int) :
    ∀ (k : Nat) (l : List Record),
      (nthGo ts n k l).map Prod.fst = l.map Record.rid := by
  intro k l
  induction l generalizing k with
  | nil => rfl
  | cons a rest ih => simp [nthGo, ih]

lemma nthGo_cons (ts : List Rat) (n : Int) (k : Nat) (a : Record)
    (rest : List Record) :
    nthGo ts n k (a :: rest) =
      (a.rid,
        match shiftGet ts ((k : Int) - (n - 1)) with
        | some t0 => a.time - t0
        | none => 0) :: nthGo ts n (k + 1) rest := rfl

/-- Positional description of the n-th-interval loop. -/
lemma nthGo_getElem? (ts : List Rat) (n : Int) :
    ∀ (l : List Record) (k i : Nat) (r : Record), l[i]? = some r →
      (nthGo ts n k l)[i]? =
        some (r.rid,
          match shiftGet ts (((k + i : Nat) : Int) - (n - 1)) with
          | some t0 => r.time - t0
          | none => 0) := by
  intro l
  induction l with
  | nil => intro k i r hr; simp at hr
  | cons a rest ih =>
    intro k i r hr
    cases i with
    | zero =>
      have hra : a = r := by simpa using hr
      subst hra
      rw [nthGo_cons, List.getElem?_cons_zero, Nat.add_zero]
    | succ j =>
      rw [List.getElem?_cons_succ] at hr
      rw [nthGo_cons, List.getElem?_cons_succ]
      rw [ih (k + 1) j r hr]
      have harg : ((k + 1 + j : Nat) : Int) - (n - 1) =
          ((k + (j + 1) : Nat) : Int) - (n - 1) := by push_cast; ring
      rw [harg]

/-- `transactions_in_last_interval`, when it completes, returns a series whose
labels are exactly the original frame's labels in their original order (the
effect of the final `reindex(df.index)`). -/
lemma reindexSeries_ok_map_fst {α : Type} (s : List (Nat × α)) (target : List Nat)
    (res : List (Nat × Option α)) (h : reindexSeries s target = .ok res) :
    res.map Prod.fst = target := by
  unfold reindexSeries at h
  by_cases heq : s.map Prod.fst = target
  · rw [if_pos heq] at h
    have hres : s.map (fun e => (e.1, some e.2)) = res := by simpa using h
    have hcomp : (Prod.fst ∘ fun e : Nat × α => (e.1, some e.2)) = Prod.fst := rfl
    rw [← hres, List.map_map, hcomp, heq]
  · rw [if_neg heq] at h
    by_cases hnd : (s.map Prod.fst).Nodup
    · rw [if_pos hnd] at h
      have hres : target.map (fun i => (i, lookupId i s)) = res := by
        simpa using h
      have hcomp : (Prod.fst ∘ fun i => (i, lookupId i s)) = id := rfl
      rw [← hres, List.map_map, hcomp, List.map_id]
    · rw [if_neg hnd] at h
      exact Except.noConfusion h

lemma tili_ok_map_fst (df : List Record) (m : Int) (np : Nat)
    (res : List (Nat × Option Nat))
    (h : transactions_in_last_interval df m np = .ok res) :
    res.map Prod.fst = df.map Record.rid := by
  simp only [transactions_in_last_interval] at h
  split at h
  · exact Except.noConfusion h
  · exact reindexSeries_ok_map_fst _ _ _ h

/-- With `n_processes = 1` on a non-empty frame there is exactly one chunk,
holding the whole sorted sequence: the parallel machinery reduces to the
single-pass sequential computation followed by reattachment. -/
lemma tili_one (df : List Record) (m : Int) (h0 : 0 < df.length) :
    transactions_in_last_interval df m 1 =
      reindexSeries (process_chunk (sortRecs df) m) (df.map Record.rid) := by
  have hlen : (sortRecs df).length = df.length :=
    (List.perm_insertionSort recLE df).length_eq
  have hne : (sortRecs df).length ≠ 0 := by omega
  have hq : ((sortRecs df).length + (sortRecs df).length - 1) / (sortRecs df).length
      = 1 := by
    refine Nat.div_eq_of_lt_le (by omega) (by omega)
  have hr1 : List.range 1 = [0] := rfl
  simp only [transactions_in_last_interval, Nat.div_one, if_neg hne, hq, hr1,
    List.map_cons, List.map_nil, Nat.zero_mul, List.drop_zero, List.take_length,
    List.flatten]
  simp

/-- The n-th-interval loop emits one value per row. -/
lemma nthGo_length (ts : List Rat) (n : Int) :
    ∀ (k : Nat) (l : List Record), (nthGo ts n k l).length = l.length := by
  intro k l
  induction l generalizing k with
  | nil => rfl
  | cons a rest ih => simp [nthGo_cons, ih]

/-- `calculate_time_for_n_transactions` returns one value per input row. -/
lemma ctfnt_length (df : List Record) (n : Int) :
    (calculate_time_for_n_transactions df n).length = df.length := by
  unfold calculate_time_for_n_transactions
  rw [nthGo_length]
  exact (List.perm_insertionSort timeLE df).length_eq

/-- A label absent from a series' index looks up to `NaN`. -/
lemma lookupId_eq_none {α : Type} (i : Nat) (s : List (Nat × α))
    (h : i ∉ s.map Prod.fst) : lookupId i s = none := by
  unfold lookupId
  rw [List.find?_eq_none.mpr]
  · rfl
  · intro x hx hbeq
    have hxi : x.1 = i := by simpa using hbeq
    have : x.1 ∈ s.map Prod.fst := List.mem_map_of_mem Prod.fst hx
    rw [hxi] at this
    exact h this

/-- A series with unique labels reattaches without error on every target:
either the target is the series' own index (copy) or every target label is
looked up, missing labels padding with `NaN`. -/
lemma reindexSeries_ok_of_nodup {α : Type} (s : List (Nat × α)) (target : List Nat)
    (hnd : (s.map Prod.fst).Nodup) :
    ∃ res, reindexSeries s target = .ok res ∧ res.map Prod.fst = target ∧
      ∀ i ∈ target, i ∉ s.map Prod.fst → (i, (none : Option α)) ∈ res := by
  unfold reindexSeries
  by_cases heq : s.map Prod.fst = target
  · rw [if_pos heq]
    refine ⟨_, rfl, ?_, ?_⟩
    · have hcomp : (Prod.fst ∘ fun e : Nat × α => (e.1, some e.2)) = Prod.fst := rfl
      rw [List.map_map, hcomp, heq]
    · intro i hi hni
      rw [heq] at hni
      exact absurd hi hni
  · rw [if_neg heq, if_pos hnd]
    refine ⟨_, rfl, ?_, ?_⟩
    · have hcomp : (Prod.fst ∘ fun i => (i, lookupId i s)) = id := rfl
      rw [List.map_map, hcomp, List.map_id]
    · intro i hi hni
      have hmem : (i, lookupId i s) ∈ target.map (fun i => (i, lookupId i s)) :=
        List.mem_map_of_mem _ hi
      rwa [lookupId_eq_none i s hni] at hmem

/-- Positional description of `calculate_time_for_n_transactions`: the row at
time-sorted position `i` gets `ts[i] - ts[i - (n-1)]` when the shifted
position exists and the zero fill otherwise. -/
lemma ctfnt_getElem? (df : List Record) (n : Int) (i : Nat) (r : Record)
    (hr : (sortByTime df)[i]? = some r) :
    (calculate_time_for_n_transactions df n)[i]? =
      some (r.rid,
        match shiftGet ((sortByTime df).map Record.time) ((i : Int) - (n - 1)) with
        | some t0 => r.time - t0
        | none => 0) := by
  unfold calculate_time_for_n_transactions
  have h := nthGo_getElem? ((sortByTime df).map Record.time) n (sortByTime df) 0 i r hr
  simpa using h

/-! ## Claim theorems -/

/-- C1 (code bug exhibited): on the two-record single-group input `dfPair`
(timestamps 0 s and 10 s, interval 1 minute), the chunked run with
`n_processes = 2` returns count 1 for the 10 s record because the window deque
is reset at the chunk boundary, while the sequential single-chunk run
(`n_processes = 1`) returns 2; the two runs disagree, violating the
chunking-invariance property the spec requires. -/
theorem chunked_pass_differs_from_sequential :
    transactions_in_last_interval dfPair 1 2 = .ok [(0, some 1), (1, some 1)]
    ∧ transactions_in_last_interval dfPair 1 1 = .ok [(0, some 1), (1, some 2)]
    ∧ transactions_in_last_interval dfPair 1 2 ≠
        transactions_in_last_interval dfPair 1 1 := by
  refine ⟨?_, ?_, ?_⟩ <;> with_unfolding_all decide

/-- C3: on a single group with timestamps at 0 s, 10 s, 70 s, 75 s and
interval 1 minute, the sequential pass returns counts [1, 2, 2, 2]: at
t = 70 s the 0 s entry is evicted (0 < 70 - 60) while the 10 s entry, exactly
at the cutoff, is retained and counted. -/
theorem trailing_window_boundary_example :
    transactions_in_last_interval dfWindow 1 1 =
      .ok [(0, some 1), (1, some 2), (2, some 2), (3, some 2)] := by
  with_unfolding_all decide

/-- C10: whenever the row count is smaller than the number of processes
(the empty frame included), `chunk_size` floor-divides to zero and the chunk
comprehension's `range(0, len, 0)` raises before any counting happens. -/
theorem undersized_input_raises (df : List Record) (m : Int) (np : Nat)
    (h : df.length < np) :
    transactions_in_last_interval df m np = .error .rangeStepZero := by
  have hlen : (sortRecs df).length = df.length :=
    (List.perm_insertionSort recLE df).length_eq
  have hz : (sortRecs df).length / np = 0 := Nat.div_eq_of_lt (by omega)
  simp [transactions_in_last_interval, hz]

/-- Witness for C10: the empty frame with the default-sized pool raises. -/
theorem undersized_input_raises_witness :
    transactions_in_last_interval [] 1 4 = .error .rangeStepZero :=
  undersized_input_raises [] 1 4 (by decide)

/-- C7 (counterexample): reattaching a series that lacks identity 1 onto the
identity order [0, 1] does not raise — `reindex` silently pads the missing
identity with `NaN` and returns a result, contradicting the claim that any
missing identity raises a data-integrity error. -/
theorem reindex_pads_missing_identity :
    reindexSeries seriesMissing [0, 1] = .ok [(0, some 5), (1, none)] := by
  decide

/-- C7 (amended): reattachment raises only when the computed series itself
carries a duplicated identity and the target identity order differs from the
series' own — when the target equals the series' own index, `reindex`
short-circuits to a plain copy of the series without raising, duplicates
included; with unique identities it always succeeds, returning one entry per
target identity in target order, and each target identity missing from the
series is padded with `NaN` (`none`) rather than raising or truncating. -/
theorem reindex_error_exactly_on_duplicates (s : List (Nat × Nat)) (t : List Nat) :
    (¬ (s.map Prod.fst).Nodup → s.map Prod.fst ≠ t →
        reindexSeries s t = .error .duplicateLabels)
    ∧ (s.map Prod.fst = t →
        reindexSeries s t = .ok (s.map (fun e => (e.1, some e.2))))
    ∧ ((s.map Prod.fst).Nodup →
        ∃ res, reindexSeries s t = .ok res ∧ res.map Prod.fst = t ∧
          ∀ i ∈ t, i ∉ s.map Prod.fst → (i, (none : Option Nat)) ∈ res) := by
  refine ⟨?_, ?_, fun hnd => reindexSeries_ok_of_nodup s t hnd⟩
  · intro hnd hne
    unfold reindexSeries
    rw [if_neg hne, if_neg hnd]
  · intro heq
    unfold reindexSeries
    rw [if_pos heq]

/-- Witness for the amended C7, exercising all three branches: a
duplicate-labeled series raises on a different target, is copied verbatim onto
its own index, and a unique-labeled series with a missing identity pads it. -/
theorem reindex_error_exactly_on_duplicates_witness :
    reindexSeries seriesDup [0, 1] = .error .duplicateLabels
    ∧ reindexSeries seriesDup [0, 0] = .ok [(0, some 5), (0, some 6)]
    ∧ (∃ res, reindexSeries seriesMissing [0, 1] = .ok res ∧
        res.map Prod.fst = [0, 1] ∧
        ∀ i ∈ [0, 1], i ∉ seriesMissing.map Prod.fst →
          (i, (none : Option Nat)) ∈ res) :=
  ⟨(reindex_error_exactly_on_duplicates seriesDup [0, 1]).1 (by decide) (by decide),
   (reindex_error_exactly_on_duplicates seriesDup [0, 0]).2.1 (by decide),
   (reindex_error_exactly_on_duplicates seriesMissing [0, 1]).2.2 (by decide)⟩

/-- C2 (counterexample): the sequential pass does not compute the claim's
half-open-window count. (1) Boundary: single group, timestamps 0 s and 60 s,
interval 1 minute — the code counts 2 at the 60 s record (eviction is strict,
the 0 s entry exactly at the cutoff stays) while `(0, 60]` holds 1 record.
(2) Two groups: the late-timestamp entry of an earlier-sorted group blocks
front eviction, so the stale `([10], 0)` entry is still counted at t = 200 s —
code says 2, the window `(140, 200]` holds 1 record. (3) Ties: with two
simultaneous records the first is processed before the second is buffered —
code says 1, the window count of the claim is 2. -/
theorem window_count_spec_counterexample :
    (process_chunk (sortRecs dfBoundary) 1 = [(0, 1), (1, 2)]
      ∧ specWindowCount dfBoundary 1 ⟨1, [7], 60⟩ = 1)
    ∧ (process_chunk (sortRecs dfBlock) 1 = [(0, 1), (1, 1), (2, 2)]
      ∧ specWindowCount dfBlock 1 ⟨2, [10], 200⟩ = 1)
    ∧ (process_chunk (sortRecs dfTie) 1 = [(0, 1), (1, 2)]
      ∧ specWindowCount dfTie 1 ⟨0, [7], 0⟩ = 2) := by
  refine ⟨⟨?_, ?_⟩, ⟨?_, ?_⟩, ⟨?_, ?_⟩⟩ <;> with_unfolding_all decide

/-- C2 (amended): for a record set forming a single group and an interval
length > 0, the sequential single-chunk pass assigns to the record at sorted
position `i` a count equal to the number of records at sorted positions ≤ i
(the record itself included) whose timestamp lies in the closed interval
`[current_timestamp - interval, current_timestamp]`: eviction is
strict-less-than, so a record exactly at the cutoff is retained, and only
already-processed records are buffered. -/
theorem trailing_window_sequential_count (df : List Record) (m : Int)
    (hm : 0 < m) (k : List Int) (hk : ∀ r ∈ df, r.key = k) (i : Nat) (r : Record)
    (hr : (sortRecs df)[i]? = some r) :
    (process_chunk (sortRecs df) m)[i]? =
      some (r.rid, ((sortRecs df).take (i + 1)).countP
        (fun s => decide (s.key = r.key)
          && decide (r.time - 60 * (m : Rat) ≤ s.time)
          && decide (s.time ≤ r.time))) := by
  have hmr : (0 : Rat) < (m : Rat) := by exact_mod_cast hm
  have hiv : (0 : Rat) ≤ 60 * (m : Rat) := by nlinarith
  have htp : ((sortRecs df).map Record.time).Pairwise (· ≤ ·) :=
    sortRecs_times_pairwise_of_const_key df k hk
  have hP : ((([] : List Entry).map Prod.snd) ++
      (sortRecs df).map Record.time).Pairwise (· ≤ ·) := by simpa using htp
  have hmain := processChunkGo_count_spec (60 * (m : Rat)) hiv (sortRecs df) [] hP i r hr
  have hup : ∀ s ∈ (sortRecs df).take (i + 1), s.time ≤ r.time := by
    have hPW : (sortRecs df).Pairwise (fun a b => a.time ≤ b.time) :=
      List.pairwise_map.mp htp
    have hts : (sortRecs df).take (i + 1) = (sortRecs df).take i ++ [r] := by
      rw [List.take_succ, hr]
      rfl
    have htk : ((sortRecs df).take i ++ [r]).Pairwise (fun a b => a.time ≤ b.time) := by
      rw [← hts]
      exact hPW.sublist (List.take_sublist _ _)
    rw [hts]
    intro s hs
    rcases List.mem_append.mp hs with h1 | h2
    · exact (List.pairwise_append.mp htk).2.2 s h1 r (List.mem_singleton.mpr rfl)
    · rw [List.mem_singleton.mp h2]
  unfold process_chunk
  rw [hmain]
  congr 2
  rw [List.nil_append, List.countP_filter, List.countP_map]
  apply List.countP_congr
  intro s hs
  have hst := hup s hs
  show (decide (s.key = r.key) && decide (r.time - 60 * (m : Rat) ≤ s.time)) = true
    ↔ (decide (s.key = r.key) && decide (r.time - 60 * (m : Rat) ≤ s.time)
        && decide (s.time ≤ r.time)) = true
  simp [hst]

/-- Witness for the amended C2: the record at sorted position 2 of `dfWindow`
(t = 70 s) is counted against the closed window `[10, 70]` over the first
three sorted records. -/
theorem trailing_window_sequential_count_witness :
    (process_chunk (sortRecs dfWindow) 1)[2]? =
      some ((2 : Nat), ((sortRecs dfWindow).take 3).countP
        (fun s => decide (s.key = ([7] : List Int))
          && decide ((70 : Rat) - 60 * ((1 : Int) : Rat) ≤ s.time)
          && decide (s.time ≤ (70 : Rat)))) :=
  trailing_window_sequential_count dfWindow 1 (by decide) [7] (by decide) 2
    ⟨2, [7], 70⟩ (by with_unfolding_all decide)

/-- C4: after the (group, time) sort, the first row gets the explicit
no-predecessor marker `none`; every later row gets the exact timestamp
difference in seconds to the row before it when that row is in the same group
and `none` otherwise; because equal keys are contiguous in the sorted order, a
row whose predecessor row has a different key has no earlier same-group row at
all, so the adjacent difference is precisely the difference to the group
predecessor; and on one group with timestamps `t0, t0+5s, t0+5s, t0+20s` the
deltas are `[none, 5, 0, 15]`. -/
theorem grouped_delta_spec :
    (∀ (df : List Record) (r : Record), (sortRecs df)[0]? = some r →
        (calculate_time_delta df)[0]? = some (r.rid, none))
    ∧ (∀ (df : List Record) (i : Nat) (r p : Record),
        (sortRecs df)[i + 1]? = some r → (sortRecs df)[i]? = some p →
        (calculate_time_delta df)[i + 1]? =
          some (r.rid, if r.key = p.key then some (r.time - p.time) else none))
    ∧ (∀ (df : List Record) (i j : Nat) (r p q : Record),
        (sortRecs df)[i + 1]? = some r → (sortRecs df)[i]? = some p →
        j ≤ i → (sortRecs df)[j]? = some q → q.key = r.key → p.key = r.key)
    ∧ (calculate_time_delta dfDelta).map Prod.snd =
        [none, some 5, some 0, some 15] := by
  refine ⟨?_, ?_, ?_, ?_⟩
  · intro df r hr
    unfold calculate_time_delta
    cases hs : sortRecs df with
    | nil => rw [hs] at hr; simp at hr
    | cons a rest =>
      rw [hs] at hr
      have hra : a = r := by simpa using hr
      subst hra
      simp [deltasTop]
  · intro df i r p hr hp
    unfold calculate_time_delta
    cases hs : sortRecs df with
    | nil => rw [hs] at hr; simp at hr
    | cons a rest =>
      rw [hs] at hr hp
      rw [List.getElem?_cons_succ] at hr
      simp only [deltasTop, List.getElem?_cons_succ]
      exact deltasGo_getElem? rest a i r p hr hp
  · intro df i j r p q hr hp hji hq hqk
    rcases Nat.eq_or_lt_of_le hji with heq | hlt
    · subst heq
      have hpq : p = q := by rw [hp] at hq; simpa using hq
      rw [hpq, hqk]
    · have hPW : (sortRecs df).Pairwise recLE := List.sorted_insertionSort recLE df
      obtain ⟨hri, hre⟩ := List.getElem?_eq_some.mp hr
      obtain ⟨hpi, hpe⟩ := List.getElem?_eq_some.mp hp
      obtain ⟨hqi, hqe⟩ := List.getElem?_eq_some.mp hq
      have h1 : recLE q p := by
        have := List.pairwise_iff_getElem.mp hPW j i hqi hpi hlt
        rwa [hqe, hpe] at this
      have h2 : recLE p r := by
        have := List.pairwise_iff_getElem.mp hPW i (i + 1) hpi hri (by omega)
        rwa [hpe, hre] at this
      have hqp : q.key ≤ p.key := recLE_key_le h1
      have hpr : p.key ≤ r.key := recLE_key_le h2
      rw [hqk] at hqp
      exact le_antisymm hpr hqp
  · with_unfolding_all decide

/-- Witness for C4 at the example input: the second sorted row of `dfDelta`
gets the delta to its in-group predecessor, `8 - 3 = 5` seconds. -/
theorem grouped_delta_spec_witness :
    (calculate_time_delta dfDelta)[1]? =
      some ((1 : Nat),
        if ([4] : List Int) = [4] then some ((8 : Rat) - 3) else none) :=
  grouped_delta_spec.2.1 dfDelta 0 ⟨1, [4], 8⟩ ⟨0, [4], 3⟩
    (by with_unfolding_all decide) (by with_unfolding_all decide)

/-- C5: after sorting globally by timestamp only, the row at position `i`
gets `timestamp[i] - timestamp[i - (n-1)]` in seconds for `i ≥ n-1` and the
documented zero fill for `i < n-1`; `n = 1` yields zero for every record; and
on timestamps `[0, 5, 9, 20, 30]` with `n = 3` the results are
`[0, 0, 9, 15, 21]`. -/
theorem nth_interval_spec :
    (∀ (df : List Record) (n : Int), 1 ≤ n → ∀ (i : Nat) (r : Record),
        (sortByTime df)[i]? = some r →
        ((i : Int) < n - 1 →
          (calculate_time_for_n_transactions df n)[i]? = some (r.rid, 0))
        ∧ (∀ t0 : Rat, n - 1 ≤ (i : Int) →
            ((sortByTime df).map Record.time)[i - (n - 1).toNat]? = some t0 →
            (calculate_time_for_n_transactions df n)[i]? = some (r.rid, r.time - t0)))
    ∧ (∀ (df : List Record) (i : Nat) (r : Record), (sortByTime df)[i]? = some r →
        (calculate_time_for_n_transactions df 1)[i]? = some (r.rid, 0))
    ∧ (calculate_time_for_n_transactions dfN 3).map Prod.snd =
        [0, 0, 9, 15, 21] := by
  have hgen : ∀ (df : List Record) (n : Int) (i : Nat) (r : Record),
      (sortByTime df)[i]? = some r →
      ((i : Int) < n - 1 →
        (calculate_time_for_n_transactions df n)[i]? = some (r.rid, 0))
      ∧ (∀ t0 : Rat, 1 ≤ n → n - 1 ≤ (i : Int) →
          ((sortByTime df).map Record.time)[i - (n - 1).toNat]? = some t0 →
          (calculate_time_for_n_transactions df n)[i]? = some (r.rid, r.time - t0)) := by
    intro df n i r hr
    constructor
    · intro hlt
      rw [ctfnt_getElem? df n i r hr]
      have hneg : ¬ (0 : Int) ≤ (i : Int) - (n - 1) := by omega
      unfold shiftGet
      rw [if_neg hneg]
    · intro t0 hn hge ht0
      rw [ctfnt_getElem? df n i r hr]
      have hpos : (0 : Int) ≤ (i : Int) - (n - 1) := by omega
      have htn : ((i : Int) - (n - 1)).toNat = i - (n - 1).toNat := by omega
      unfold shiftGet
      rw [if_pos hpos, htn, ht0]
  refine ⟨fun df n hn i r hr => ⟨(hgen df n i r hr).1,
      fun t0 hge ht0 => (hgen df n i r hr).2 t0 hn hge ht0⟩, ?_, ?_⟩
  · intro df i r hr
    have ht : ((sortByTime df).map Record.time)[i - ((1 : Int) - 1).toNat]? =
        some r.time := by
      simp only [Int.sub_self, Int.toNat_zero, Nat.sub_zero]
      rw [List.getElem?_map, hr]
      rfl
    have h2 := (hgen df 1 i r hr).2 r.time le_rfl (by omega) ht
    rwa [sub_self] at h2
  · with_unfolding_all decide

/-- Witness for C5: `n = 1` at the first time-sorted record of `dfN` gives
exactly zero. -/
theorem nth_interval_spec_witness :
    (calculate_time_for_n_transactions dfN 1)[0]? = some ((0 : Nat), (0 : Rat)) :=
  nth_interval_spec.2.1 dfN 0 ⟨0, [1], 0⟩ (by with_unfolding_all decide)

/-- C6: each of the three feature computations returns one value per input
record, carrying every original record identity exactly once — the grouped
delta and n-th interval series carry the identities as a permutation (sorted
order), and the chunked counter, whenever it completes, returns them in
exactly the original order thanks to the final `reindex`. -/
theorem result_series_identity :
    (∀ df : List Record,
        ((calculate_time_delta df).map Prod.fst).Perm (df.map Record.rid))
    ∧ (∀ (df : List Record) (n : Int),
        ((calculate_time_for_n_transactions df n).map Prod.fst).Perm
          (df.map Record.rid))
    ∧ (∀ (df : List Record) (m : Int) (np : Nat) (res : List (Nat × Option Nat)),
        transactions_in_last_interval df m np = .ok res →
        res.map Prod.fst = df.map Record.rid) := by
  refine ⟨?_, ?_, fun df m np res h => tili_ok_map_fst df m np res h⟩
  · intro df
    have hperm : ((sortRecs df).map Record.rid).Perm (df.map Record.rid) :=
      (List.perm_insertionSort recLE df).map Record.rid
    unfold calculate_time_delta
    cases hs : sortRecs df with
    | nil =>
      rw [hs] at hperm
      have hdf : df = [] := by simpa using hperm
      subst hdf
      simp [deltasTop]
    | cons a rest =>
      rw [hs] at hperm
      simp only [List.map_cons] at hperm
      simp only [deltasTop, List.map_cons, deltasGo_map_fst]
      exact hperm
  · intro df n
    unfold calculate_time_for_n_transactions
    rw [nthGo_map_fst]
    exact (List.perm_insertionSort timeLE df).map Record.rid

/-- Witness for C6: the counter's output over `dfWindow` carries the original
identities 0, 1, 2, 3 in original order. -/
theorem result_series_identity_witness :
    ([(0, some 1), (1, some 2), (2, some 2), (3, some 2)] :
        List (Nat × Option Nat)).map Prod.fst = dfWindow.map Record.rid :=
  result_series_identity.2.2 dfWindow 1 1 _ (by with_unfolding_all decide)

/-- C8 (counterexample): neither function validates its parameters. With
`interval_minutes = 0` (≤ 0) the counter happily returns a full result series
(each record only counts entries exactly at its own timestamp), and with
`n = 0` (< 1) the n-th-interval calculator returns a series built from a
forward shift (`shift(-1)`) — no input-validation error is raised and a
result series is produced in both cases. -/
theorem degenerate_parameters_counterexample :
    transactions_in_last_interval dfPair 0 1 = .ok [(0, some 1), (1, some 1)]
    ∧ calculate_time_for_n_transactions dfPair 0 = [(0, -10), (1, 0)] := by
  refine ⟨?_, ?_⟩ <;> with_unfolding_all decide

/-- C8 (amended): the code performs no parameter validation. For any interval
length ≤ 0 the trailing-window counter still runs to completion on a
single-chunk pool over a non-empty frame with unique identities and produces
a full-cardinality result series, and for any `n < 1` the n-th-interval
calculator produces a full-cardinality result series. -/
theorem no_parameter_validation (df : List Record) (m n : Int)
    (_hm : m ≤ 0) (_hn : n < 1) (h0 : 0 < df.length)
    (hnd : (df.map Record.rid).Nodup) :
    (∃ res, transactions_in_last_interval df m 1 = .ok res ∧
      res.length = df.length)
    ∧ (calculate_time_for_n_transactions df n).length = df.length := by
  refine ⟨?_, ctfnt_length df n⟩
  rw [tili_one df m h0]
  have hfst : (process_chunk (sortRecs df) m).map Prod.fst =
      (sortRecs df).map Record.rid := processChunkGo_map_fst _ _ _
  have hnd2 : ((process_chunk (sortRecs df) m).map Prod.fst).Nodup := by
    rw [hfst]
    exact ((List.perm_insertionSort recLE df).map Record.rid).nodup_iff.mpr hnd
  obtain ⟨res, hok, hfst2, _⟩ :=
    reindexSeries_ok_of_nodup (process_chunk (sortRecs df) m) (df.map Record.rid) hnd2
  refine ⟨res, hok, ?_⟩
  have hlen := congrArg List.length hfst2
  simpa using hlen

/-- Witness for the amended C8 with `interval_minutes = 0` and `n = 0`. -/
theorem no_parameter_validation_witness :
    (∃ res, transactions_in_last_interval dfPair 0 1 = .ok res ∧
      res.length = dfPair.length)
    ∧ (calculate_time_for_n_transactions dfPair 0).length = dfPair.length :=
  no_parameter_validation dfPair 0 0 (by decide) (by decide) (by decide) (by decide)

/-- C9: on a record store whose timestamp field already holds parsed datetime
values — the only stores the data model admits —
`transactions_last_minute`'s in-place column assignment
`df[time_col] = pd.to_datetime(df[time_col])` rewrites every value to itself,
so the store after the call equals the store before it; the remaining feature
computations (grouped delta, trailing-window counter, n-th interval) contain
no in-place operation at all and are embedded as pure functions of the store. -/
theorem feature_pass_preserves_store (df : List RawRecord)
    (h : ∀ r ∈ df, r.time.isDt = true) :
    (transactions_last_minute df).1 = df := by
  unfold transactions_last_minute
  show df.map _ = df
  conv_rhs => rw [← List.map_id df]
  apply List.map_congr_left
  intro r hr
  have hdt := h r hr
  cases hrt : r.time with
  | raw v => rw [hrt] at hdt; simp [TVal.isDt] at hdt
  | dt v =>
    cases r
    simp_all [TVal.toDatetime]

/-- Witness for C9: a two-record store in datetime form is unchanged. -/
theorem feature_pass_preserves_store_witness :
    (transactions_last_minute dfLast).1 = dfLast :=
  feature_pass_preserves_store dfLast (by decide)

end CreditCard
